import Mathlib

/-!
Verification of the SIC/XE two-pass assembler (`SicXEAssem.py`) against its
natural-language specification.

The Python source is shallowly embedded below.  Python strings are Lean
`String`s, the `SYMTAB` / `OPTAB` dictionaries are association lists, the
mutable `LOCCTR` global is threaded explicitly, and fallible operations
(`s[i]` on an out-of-range index, `int(...)` on unparsable text,
string-concatenation with `None`) return `Except PyErr`.  Numeric semantics
follow the Python 2 dialect the program is written in (`print x,`
statement-style output, integer `/` as floor division).
-/

namespace SicXE

/-- Python exception kinds that the embedded code can raise. -/
inductive PyErr where
  | indexError : PyErr
  | valueError : PyErr
  | typeError : PyErr
deriving DecidableEq, Repr

/-- Result of running a piece of embedded Python code. -/
abbrev PyRes (α : Type) := Except PyErr α

/-- Sequencing of fallible embedded code (Python statements raise through). -/
def ebind {α β : Type} (x : PyRes α) (f : α → PyRes β) : PyRes β :=
  match x with
  | .error e => .error e
  | .ok a => f a

/-- `s[0]` on a Python string: first character or `IndexError`. -/
def strHead (s : String) : PyRes Char :=
  match s.data with
  | [] => .error .indexError
  | c :: _ => .ok c

/-- `s[len(s) - 1]` on a Python string: last character or `IndexError`. -/
def strLast (s : String) : PyRes Char :=
  match s.data.getLast? with
  | none => .error .indexError
  | some c => .ok c

/-- Python slice `s[1:]` (never raises). -/
def strDrop1 (s : String) : String := String.mk (s.data.drop 1)

/-- Python slice `s[:len(s) - 2]` (never raises). -/
def dropLast2 (s : String) : String := String.mk (s.data.dropLast.dropLast)

/-- Python slice `s[2:len(s) - 1]` (never raises). -/
def strSlice2dropLast (s : String) : String := String.mk ((s.data.drop 2).dropLast)

/-- `lst[i]` on a Python list of strings: element or `IndexError`. -/
def pyIdx (l : List String) (i : Nat) : PyRes String :=
  match l[i]? with
  | none => .error .indexError
  | some s => .ok s

/-- `d.get(k)` on a Python string-to-string dict (association list). -/
def dGet (t : List (String × String)) (k : String) : Option String :=
  match t with
  | [] => none
  | (k2, v) :: rest => if k = k2 then some v else dGet rest k

/-- `k in d` on a Python dict. -/
def dMem (t : List (String × String)) (k : String) : Bool :=
  (dGet t k).isSome

/-- `d[k] = v` on a Python dict (silent overwrite of an existing key). -/
def dSet (t : List (String × String)) (k v : String) : List (String × String) :=
  match t with
  | [] => [(k, v)]
  | (k2, v2) :: rest => if k = k2 then (k, v) :: rest else (k2, v2) :: dSet rest k v

/-- String-concatenating a dict lookup: `s + d.get(k)` raises `TypeError`
when the key is missing (`None` is not a string). -/
def dGetT (t : List (String × String)) (k : String) : PyRes String :=
  match dGet t k with
  | none => .error .typeError
  | some v => .ok v

/-- `str(x)` on an optional string: `str(None)` is the text `"None"`. -/
def pyStrOpt (x : Option String) : String :=
  match x with
  | none => "None"
  | some s => s

/-- One digit character as Python prints it (decimal and lowercase hex). -/
def digitChar (n : Nat) : Char :=
  if n < 10 then Char.ofNat (48 + n)
  else if n < 16 then Char.ofNat (87 + n)
  else '*'

/-- Little-endian digits of `n` in base `b`, with explicit fuel so that the
definition is structurally recursive. -/
def natDigitsAux (b : Nat) : Nat → Nat → List Nat
  | 0, _ => []
  | fuel + 1, n => if n = 0 then [] else n % b :: natDigitsAux b fuel (n / b)

/-- Little-endian digits of `n` in base `b` (empty for `n = 0`). -/
def natDigits (b n : Nat) : List Nat := natDigitsAux b n n

/-- The characters Python prints for `n` in base `b` (most significant first;
`"0"` for zero). -/
def renderNat (b n : Nat) : List Char :=
  if n = 0 then ['0'] else (natDigits b n).reverse.map digitChar

/-- `hex(n)[2:]` for a non-negative `n`: lowercase hex digits, no prefix. -/
def pyHexNat (n : Nat) : String := String.mk (renderNat 16 n)

/-- `bin(n)[2:]` for a non-negative `n`: binary digits, no prefix. -/
def pyBinNat (n : Nat) : String := String.mk (renderNat 2 n)

/-- `hex(v)[2:]` on a possibly negative int: `hex(-5)` is `'-0x5'`, so the
slice keeps an `'x'` in front of the digits. -/
def pyHexSliced (v : Int) : String :=
  if v < 0 then String.mk ('x' :: renderNat 16 v.natAbs) else pyHexNat v.toNat

/-- `str(v)` on an int: decimal digits with a leading minus sign if negative. -/
def pyStrInt (v : Int) : String :=
  if v < 0 then String.mk ('-' :: renderNat 10 v.natAbs)
  else String.mk (renderNat 10 v.toNat)

/-- `s.zfill(w)`: pad with `'0'` on the left up to width `w`, after a leading
minus sign if one is present. -/
def zfill (s : String) (w : Nat) : String :=
  match s.data with
  | '-' :: rest => String.mk ('-' :: (List.replicate (w - s.length) '0' ++ rest))
  | cs => String.mk (List.replicate (w - s.length) '0' ++ cs)

/-- Value of a decimal digit character, if it is one. -/
def decVal? (c : Char) : Option Nat :=
  if 48 ≤ c.toNat ∧ c.toNat ≤ 57 then some (c.toNat - 48) else none

/-- Value of a hexadecimal digit character (either case), if it is one. -/
def hexVal? (c : Char) : Option Nat :=
  if 48 ≤ c.toNat ∧ c.toNat ≤ 57 then some (c.toNat - 48)
  else if 97 ≤ c.toNat ∧ c.toNat ≤ 102 then some (c.toNat - 87)
  else if 65 ≤ c.toNat ∧ c.toNat ≤ 70 then some (c.toNat - 55)
  else none

/-- Accumulate a digit string left to right; `none` on the first bad digit. -/
def parseNatAux (b : Nat) (dv : Char → Option Nat) : List Char → Nat → Option Nat
  | [], acc => some acc
  | c :: cs, acc =>
    match dv c with
    | none => none
    | some d => parseNatAux b dv cs (acc * b + d)

/-- `int(s, b)`: optional minus sign followed by at least one digit of the
base, else `ValueError`.  (Python also accepts surrounding whitespace and a
`0x`-style prefix; the assembler never produces those here.) -/
def pyIntBase (b : Nat) (dv : Char → Option Nat) (s : String) : PyRes Int :=
  match s.data with
  | [] => .error .valueError
  | '-' :: rest =>
    match rest with
    | [] => .error .valueError
    | _ =>
      match parseNatAux b dv rest 0 with
      | none => .error .valueError
      | some n => .ok (-(n : Int))
  | cs =>
    match parseNatAux b dv cs 0 with
    | none => .error .valueError
    | some n => .ok (n : Int)

/-- `int(s)` (decimal). -/
def pyIntDec (s : String) : PyRes Int := pyIntBase 10 decVal? s

/-- `int(s, 16)`. -/
def pyIntHex (s : String) : PyRes Int := pyIntBase 16 hexVal? s

/-- `int(x, 16)` where `x` may be `None`: `int(None, 16)` raises `TypeError`. -/
def pyIntHexOpt (x : Option String) : PyRes Int :=
  match x with
  | none => .error .typeError
  | some s => pyIntHex s

/-- Whitespace characters for Python `str.split()` with no separator. -/
def isPySpace (c : Char) : Bool :=
  c = ' ' ∨ c = '\t' ∨ c = '\n' ∨ c = '\r' ∨ c = '\x0b' ∨ c = '\x0c'

/-- `s.split()`: split on runs of whitespace, discarding empty fields. -/
def pySplitWsAux : List Char → List Char → List String
  | [], [] => []
  | [], w => [String.mk w.reverse]
  | c :: rest, w =>
    if isPySpace c then
      match w with
      | [] => pySplitWsAux rest []
      | _ => String.mk w.reverse :: pySplitWsAux rest []
    else pySplitWsAux rest (c :: w)

/-- `s.split(',')`: split at every comma, keeping empty fields. -/
def pySplitCommaAux : List Char → List Char → List String
  | [], w => [String.mk w.reverse]
  | c :: rest, w =>
    if c = ',' then String.mk w.reverse :: pySplitCommaAux rest []
    else pySplitCommaAux rest (c :: w)

/-! The static opcode / format / register tables of the assembler. -/

/-- Mnemonic-to-opcode table `OPTAB`. -/
def OPTAB : List (String × String) :=
  [("ADD", "18"), ("ADDF", "58"), ("ADDR", "90"), ("AND", "40"), ("CLEAR", "B4"),
   ("COMP", "28"), ("COMPF", "88"), ("COMPR", "A0"), ("DIV", "24"), ("DIVF", "64"),
   ("DIVR", "9C"), ("FIX", "C4"), ("FLOAT", "C0"), ("HIO", "F4"), ("J", "3C"),
   ("JEQ", "30"), ("JGT", "34"), ("JLT", "38"), ("JSUB", "48"), ("LDA", "00"),
   ("LDB", "68"), ("LDCH", "50"), ("LDF", "70"), ("LDL", "08"), ("LDS", "6C"),
   ("LDT", "74"), ("LDX", "04"), ("LPS", "D0"), ("MUL", "20"), ("MULF", "60"),
   ("MULR", "98"), ("NORM", "C8"), ("OR", "44"), ("RD", "D8"), ("RMO", "AC"),
   ("RSUB", "4C"), ("SHIFTL", "A4"), ("SHIFTR", "A8"), ("SIO", "F0"), ("SSK", "EC"),
   ("STA", "0C"), ("STB", "78"), ("STCH", "54"), ("STF", "80"), ("STI", "D4"),
   ("STL", "14"), ("STS", "7C"), ("STSW", "E8"), ("STT", "84"), ("STX", "10"),
   ("SUB", "1C"), ("SUBF", "5C"), ("SUBR", "94"), ("SVC", "B0"), ("TD", "E0"),
   ("TIO", "F8"), ("TIX", "2C"), ("TIXR", "B8"), ("WD", "DC")]

/-- Format-1 mnemonic table `FORM1`. -/
def FORM1 : List (String × String) :=
  [("FIX", "C4"), ("FLOAT", "C0"), ("HIO", "F4"), ("NORM", "C8"), ("SIO", "F0"),
   ("TIO", "F8")]

/-- Format-2 mnemonic table `FORM2`. -/
def FORM2 : List (String × String) :=
  [("ADDR", "90"), ("CLEAR", "B4"), ("COMPR", "A0"), ("DIVR", "9C"), ("MULR", "98"),
   ("RMO", "AC"), ("SHIFTL", "A4"), ("SHIFTR", "A8"), ("SUBR", "94"), ("SVC", "B0"),
   ("TIXR", "B8")]

/-- Register-name table `REGS`. -/
def REGS : List (String × String) :=
  [("A", "0"), ("X", "1"), ("L", "2"), ("B", "3"), ("S", "4"), ("T", "5"),
   ("F", "6"), ("PC", "8"), ("SW", "9")]

/-! Pass 1: the line splitter and the location-counter pass. -/

/-- `FindColumn`: replace tabs by spaces, insert a blank label sentinel when
the line starts with a space, split on whitespace, truncate to three fields
(later tokens are comments) and pad to exactly three fields. -/
def FindColumn (strline : String) : PyRes (List String) :=
  let newstrline := String.mk (strline.data.map (fun c => if c = '\t' then ' ' else c))
  ebind (strHead newstrline) fun c0 =>
  let columns0 : List String := if c0 = ' ' then ["    "] else []
  let precols := pySplitWsAux newstrline.data []
  let columns := columns0 ++ precols
  let columns := columns.take 3
  let columns := columns ++ List.replicate (3 - columns.length) ""
  .ok columns

/-- `FindOffset`: given the `[label, mnemonic, operand]` fields of a record
and the location counter, produce the record with its address string inserted
in front and the advanced counter.  `BASE` lines and full-line comments get a
blank address and leave the counter alone; `START` re-seeds the counter from
its operand.  Integer division in the `BYTE X'...'` branch is Python 2 floor
division. -/
def FindOffset (columns : List String) (locctr : Int) :
    PyRes (List String × Int) :=
  ebind (pyIdx columns 0) fun lbl =>
  ebind (pyIdx columns 1) fun mnem =>
  ebind (pyIdx columns 2) fun opnd =>
  if mnem = "BASE" then .ok ("     " :: columns, locctr)
  else
    ebind (strHead lbl) fun c0 =>
    if c0 = '.' then .ok ("     " :: columns, locctr)
    else
      let columns2 := zfill (pyHexSliced locctr) 5 :: columns
      if mnem = "START" then
        ebind (pyIntHex opnd) fun v => .ok (columns2, v)
      else if dMem FORM2 mnem then .ok (columns2, locctr + 2)
      else if dMem FORM1 mnem then .ok (columns2, locctr + 1)
      else
        ebind (strHead mnem) fun m0 =>
        if m0 = '+' then .ok (columns2, locctr + 4)
        else if mnem = "RESW" then
          ebind (pyIntDec opnd) fun n => .ok (columns2, locctr + n * 3)
        else if mnem = "RESB" then
          ebind (pyIntDec opnd) fun n => .ok (columns2, locctr + n)
        else if mnem = "WORD" then .ok (columns2, locctr + 3)
        else if mnem = "BYTE" then
          ebind (strHead opnd) fun b0 =>
          if b0 = 'C' then .ok (columns2, locctr + ((opnd.length : Int) - 3))
          else if b0 = 'X' then
            .ok (columns2, locctr + Int.fdiv ((opnd.length : Int) - 3) 2)
          else .ok (columns2, locctr + 1)
        else .ok (columns2, locctr + 3)

/-- `FillSymTab`: record `label` at index 1 of the addressed record into the
symbol table, unless the label field is the blank sentinel or a dot. -/
def FillSymTab (columns : List String) (symtab : List (String × String)) :
    PyRes (List (String × String)) :=
  ebind (pyIdx columns 1) fun lbl =>
  if lbl = "    " then .ok symtab
  else if lbl = "." then .ok symtab
  else
    ebind (pyIdx columns 0) fun addr =>
    .ok (dSet symtab lbl addr)

/-- The Pass-1 loop body over the list of source lines, threading the
location counter and the symbol table and accumulating the parsed records. -/
def FirstPassAux :
    List String → Int → List (String × String) → List (List String) →
    PyRes (List (List String) × Int × List (String × String))
  | [], locctr, symtab, acc => .ok (acc.reverse, locctr, symtab)
  | line :: rest, locctr, symtab, acc =>
    ebind (FindColumn line) fun cols =>
    ebind (FindOffset cols locctr) fun res =>
    ebind (pyIdx res.1 1) fun lbl =>
    if lbl = "." then FirstPassAux rest res.2 symtab (res.1 :: acc)
    else
      ebind (FillSymTab res.1 symtab) fun symtab2 =>
      FirstPassAux rest res.2 symtab2 (res.1 :: acc)

/-- `FirstPass`: run Pass 1 over the source lines with `LOCCTR = 0` and an
empty `SYMTAB`. -/
def FirstPass (lines : List String) :
    PyRes (List (List String) × Int × List (String × String)) :=
  FirstPassAux lines 0 [] []

/-! Pass 2: the instruction encoders.  (`XBPE` and `TwoComp` appear before
their callers `Format3` / `Format4`, as Lean requires.) -/

/-- `NIbits`: addressing-mode selector from the operand's first character
(`#` immediate = 1, `@` indirect = 2, otherwise simple = 3).  Raises
`IndexError` on an empty operand. -/
def NIbits (operand : String) : PyRes Int :=
  ebind (strHead operand) fun c =>
  .ok (if c = '#' then 1 else if c = '@' then 2 else 3)

/-- `FindOpcode`: opcode hex string plus the n/i bits (a flat `+3` for opcode
`4C`, i.e. `RSUB`, without consulting the operand), re-rendered as two hex
digits. -/
def FindOpcode (opcode operand : String) : PyRes String :=
  ebind (pyIntHex opcode) fun intval =>
  ebind (if opcode = "4C" then .ok (intval + 3)
         else ebind (NIbits operand) fun ni => .ok (intval + ni)) fun intval2 =>
  .ok (zfill (pyHexSliced intval2) 2)

/-- `XBPE`: the x/b/p/e flag nibble.  Empty operand short-circuits to `"0"`;
a trailing `X` sets the x bit and is stripped; a `+`-prefixed opcode returns
with only the e bit added; otherwise a Symbol-Table operand picks the b or p
bit from the program-counter range test on `(curraddr + 3) - labeladdr`. -/
def XBPE (opcode operand curraddr : String) (symtab : List (String × String)) :
    PyRes String :=
  if operand = "" then .ok "0"
  else
    ebind (strLast operand) fun lc =>
    let midbits : Nat := if lc = 'X' then 8 else 0
    let operand := if lc = 'X' then dropLast2 operand else operand
    ebind (strHead opcode) fun oc =>
    if oc = '+' then .ok (pyHexNat (midbits + 1))
    else
      ebind (strHead operand) fun c0 =>
      let operand := if c0 = '#' ∨ c0 = '@' then strDrop1 operand else operand
      if dMem symtab operand then
        ebind (pyIntHex curraddr) fun curr =>
        ebind (pyIntHexOpt (dGet symtab operand)) fun lab =>
        if curr + 3 - lab > 2047 ∨ curr + 3 - lab < -2048 then
          .ok (pyHexNat (midbits + 4))
        else .ok (pyHexNat (midbits + 2))
      else .ok (pyHexNat midbits)

/-- `bin(d)[3:]`: for a negative `d` this strips `-0b` leaving the binary
digits of `|d|`; for non-negative `d` it strips `0b` plus the leading digit. -/
def binSliced (d : Int) : String :=
  if d < 0 then pyBinNat d.natAbs
  else String.mk ((renderNat 2 d.toNat).drop 1)

/-- Bit flip of a binary digit character (anything that is not `'0'` becomes
`'0'`). -/
def flipChar (c : Char) : Char := if c = '0' then '1' else '0'

/-- `int(s, 2)` on a string of `'0'`/`'1'` characters (total: `TwoComp` only
ever parses the output of the bit-flip loop, which is such a string). -/
def parseBinChars (cs : List Char) : Nat :=
  cs.foldl (fun a c => 2 * a + (if c = '1' then 1 else 0)) 0

/-- `TwoComp`: two's-complement encoder.  Binary digits of `|disp|`
zero-filled to 12 bits, each bit flipped, re-read as binary, plus one,
rendered as at least 3 hex digits. -/
def TwoComp (disp : Int) : String :=
  let bin_disp := zfill (binSliced disp) 12
  let newbin := bin_disp.data.map flipChar
  zfill (pyHexNat (parseBinChars newbin + 1)) 3

/-- `Format3`: encode a format-3 record.  `baseaddr` is the Pass-2 base
register value, which is `None` when a `BASE` directive named an unknown
label.  A missing Symbol-Table entry under simple addressing reaches
`int(SYMTAB.get(operand), 16)` = `int(None, 16)`, a `TypeError`. -/
def Format3 (opcode operand curraddr : String) (baseaddr : Option String)
    (symtab : List (String × String)) : PyRes String :=
  if opcode = "START" then .ok ""
  else if opcode = "END" then .ok ""
  else
    let codeval := pyStrOpt (dGet OPTAB opcode)
    ebind (FindOpcode codeval operand) fun opstr =>
    ebind (XBPE opcode operand curraddr symtab) fun xb =>
    let fs := opstr ++ xb
    if opcode = "RSUB" then .ok (fs ++ "000")
    else
      ebind (pyIntHex curraddr) fun curr =>
      let nextaddr := curr + 3
      ebind (strHead operand) fun c0 =>
      if c0 = '#' ∨ c0 = '@' then
        let rest := strDrop1 operand
        if dMem symtab rest then
          ebind (pyIntHexOpt (dGet symtab rest)) fun lab =>
          if curr + 3 - lab > 2047 ∨ curr + 3 - lab < -2048 then
            ebind (pyIntHexOpt baseaddr) fun base =>
            .ok (fs ++ zfill (pyStrInt (lab - base)) 3)
          else
            let disp := lab - nextaddr
            if disp < 0 then .ok (fs ++ zfill (TwoComp disp) 3)
            else .ok (fs ++ zfill (pyHexSliced disp) 3)
        else
          ebind (pyIntDec rest) fun v =>
          .ok (fs ++ zfill (pyHexSliced v) 3)
      else
        ebind (strLast operand) fun lc =>
        let operand := if lc = 'X' then dropLast2 operand else operand
        match dGet symtab operand with
        | none => .error .typeError
        | some a =>
          ebind (pyIntHex a) fun lab =>
          if curr + 3 - lab > 2047 ∨ curr + 3 - lab < -2048 then
            ebind (pyIntHexOpt baseaddr) fun base =>
            .ok (fs ++ zfill (pyStrInt (lab - base)) 3)
          else if lab > nextaddr then
            .ok (fs ++ zfill (pyHexSliced (lab - nextaddr)) 3)
          else .ok (fs ++ TwoComp (lab - nextaddr))

/-- `Format4`: encode an extended-format record.  The opcode is looked up
with the `+` prefix stripped; `FindOpcode(None, ...)` would be a `TypeError`.
The `opcode == "RSUB"` special case never fires for `"+RSUB"`, so an empty
operand then raises `IndexError` at `operand[0]`. -/
def Format4 (opcode operand curraddr : String)
    (symtab : List (String × String)) : PyRes String :=
  ebind (match dGet OPTAB (strDrop1 opcode) with
         | none => .error .typeError
         | some code => FindOpcode code operand) fun opstr =>
  ebind (XBPE opcode operand curraddr symtab) fun xb =>
  let fs := opstr ++ xb
  if opcode = "RSUB" then .ok (fs ++ "0000")
  else
    ebind (strHead operand) fun c0 =>
    if c0 = '#' ∨ c0 = '@' then
      let newstr := strDrop1 operand
      match dGet symtab newstr with
      | some a => .ok (fs ++ a)
      | none =>
        ebind (pyIntDec newstr) fun v =>
        .ok (fs ++ zfill (pyHexSliced v) 5)
    else
      ebind (strLast operand) fun lc =>
      if lc = 'X' then
        match dGet symtab (dropLast2 operand) with
        | some a => .ok (fs ++ a)
        | none => .ok fs
      else
        match dGet symtab operand with
        | some a => .ok (fs ++ a)
        | none => .ok fs

/-- `Format2`: encode a two-byte register instruction. -/
def Format2 (opcode operand : String) : PyRes String :=
  ebind (dGetT FORM2 opcode) fun fs =>
  let tworegs := operand.data.contains ','
  if tworegs then
    let reglist := pySplitCommaAux operand.data []
    ebind (pyIdx reglist 0) fun r0 =>
    ebind (pyIdx reglist 1) fun r1 =>
    if dMem REGS r0 ∧ dMem REGS r1 then
      ebind (dGetT REGS r0) fun v0 =>
      ebind (dGetT REGS r1) fun v1 =>
      .ok (fs ++ v0 ++ v1)
    else if opcode = "SHIFTL" ∨ opcode = "SHIFTR" then
      ebind (dGetT REGS r0) fun v0 =>
      ebind (pyIntDec r1) fun n =>
      .ok (fs ++ v0 ++ pyHexSliced (n - 1))
    else .ok fs
  else if dMem REGS operand then
    ebind (dGetT REGS operand) fun v =>
    .ok (fs ++ v ++ "0")
  else
    ebind (pyIntDec operand) fun n =>
    .ok (fs ++ pyHexSliced n ++ "0")

/-- `FindForm`: 4 for a `+`-prefixed mnemonic, else 3. -/
def FindForm (opcode : String) : PyRes Nat :=
  ebind (strHead opcode) fun c =>
  .ok (if c = '+' then 4 else 3)

/-! Pass 2: the record loop. -/

/-- The mutable assembler state visible to Pass 2: the Pass-1 globals
(`LOCCTR` and `SYMTAB`) plus the pass-local base register string, which is
`None` after a `BASE` directive naming an unknown label. -/
structure SPState where
  locctr : Int
  symtab : List (String × String)
  basevar : Option String

/-- Pair off the hex characters of an instruction string (a trailing odd
character forms a chunk of its own, exactly as `range(0, len, 2)` slices). -/
def chunk2 : List Char → List (List Char)
  | [] => []
  | [c] => [[c]]
  | a :: b :: rest => [a, b] :: chunk2 rest

/-- `''.join(chr(int(instrform[i:i+2], 16)) ...)`: each two-character chunk
is parsed as hex and must be a valid code point for `chr`. -/
def writeBytesAux : List (List Char) → PyRes (List Int)
  | [] => .ok []
  | ch :: rest =>
    ebind (pyIntHex (String.mk ch)) fun v =>
    if v < 0 ∨ 1114112 ≤ v then .error .valueError
    else
      ebind (writeBytesAux rest) fun vs =>
      .ok (v :: vs)

/-- The byte values the loop writes to the `.exe` file for one instruction
string. -/
def writeBytes (instrform : String) : PyRes (List Int) :=
  writeBytesAux (chunk2 instrform.data)

/-- The branch dispatch of the `SecondPass` loop body over a parsed record
`[address, label, mnemonic, operand]`: build the record's instruction
string, and carry the (possibly re-bound, in the `BASE` branch only) base
register value along.  `none` stands for the `continue` branches (comment,
`START`, `END`), which skip the common append-and-write tail. -/
def stepInstr (elem : List String) (st : SPState) :
    PyRes (Option (Option String × String)) :=
  ebind (pyIdx elem 2) fun code =>
  if code = "RESB" then
    ebind (pyIdx elem 3) fun opnd =>
    ebind (pyIntDec opnd) fun n =>
    .ok (some (st.basevar, String.mk (List.replicate (2 * n).toNat '0')))
  else if code = "RESW" then
    ebind (pyIdx elem 3) fun opnd =>
    ebind (pyIntDec opnd) fun n =>
    .ok (some (st.basevar, String.mk (List.replicate (6 * n).toNat '0')))
  else
    ebind (pyIdx elem 1) fun lbl =>
    ebind (strHead lbl) fun l0 =>
    if l0 = '.' then .ok none
    else if code = "START" then .ok none
    else if code = "END" then .ok none
    else if code = "BYTE" then
      ebind (pyIdx elem 3) fun opnd =>
      ebind (strHead opnd) fun b0 =>
      if b0 = 'X' then .ok (some (st.basevar, zfill (strSlice2dropLast opnd) 2))
      else if b0 = 'C' then
        .ok (some (st.basevar, String.join
          ((strSlice2dropLast opnd).data.map (fun ch => pyHexNat ch.toNat))))
      else .error .typeError
    else if code = "WORD" then
      ebind (pyIdx elem 3) fun opnd =>
      ebind (pyIntDec opnd) fun n =>
      .ok (some (st.basevar, zfill (pyHexSliced n) 6))
    else if code = "BASE" then
      ebind (pyIdx elem 3) fun opnd =>
      .ok (some (dGet st.symtab opnd, ""))
    else if dMem FORM1 code then
      ebind (dGetT FORM1 code) fun v =>
      .ok (some (st.basevar, v))
    else if dMem FORM2 code then
      ebind (pyIdx elem 3) fun opnd =>
      ebind (Format2 code opnd) fun s =>
      .ok (some (st.basevar, s))
    else if dMem OPTAB code ∨ dMem OPTAB (strDrop1 code) then
      ebind (FindForm code) fun f =>
      ebind (pyIdx elem 3) fun opnd =>
      ebind (pyIdx elem 0) fun addr =>
      ebind (if f = 4 then Format4 code opnd addr st.symtab
             else Format3 code opnd addr st.basevar st.symtab) fun s =>
      .ok (some (st.basevar, s))
    else .ok (some (st.basevar, ""))

/-- One iteration of the `SecondPass` loop: dispatch on the record, then run
the common tail that converts the instruction string to bytes and writes it.
Only the base register field of the state can change. -/
def stepRecord (elem : List String) (st : SPState) :
    PyRes (SPState × Option (List Int)) :=
  ebind (stepInstr elem st) fun r =>
  match r with
  | none => .ok (st, none)
  | some (bv, instrform) =>
    ebind (writeBytes instrform) fun bs =>
    .ok ({ st with basevar := bv }, some bs)

/-- The `SecondPass` loop, accumulating the object-stream bytes in program
order.  An exception stops the loop and is reported in the third component;
the state reached so far is returned either way. -/
def SecondPassAux :
    List (List String) → SPState → List Int →
    SPState × List Int × Option PyErr
  | [], st, acc => (st, acc, none)
  | elem :: rest, st, acc =>
    match stepRecord elem st with
    | .error e => (st, acc, some e)
    | .ok (st2, none) => SecondPassAux rest st2 acc
    | .ok (st2, some bs) => SecondPassAux rest st2 (acc ++ bs)

/-- `SecondPass`: run Pass 2 over the parsed records; the local base
register starts as the string `'0'`. -/
def SecondPass (infolist : List (List String)) (st : SPState) :
    SPState × List Int × Option PyErr :=
  SecondPassAux infolist { st with basevar := some "0" } []

/-! Spec-side definitions, used only to state refinement-style claims. -/

/-- Modelled from the spec: the per-record length Pass 1 is claimed to
advance the counter by — +2 for format-2 mnemonics, +1 for format-1
mnemonics, +4 for an extended-prefixed operation, +3n for `RESW n`, +n for
`RESB n`, +3 for `WORD`, +(length of the literal text) for `BYTE C'...'`,
+(half the hex-digit count) for `BYTE X'...'`, +1 for a bare-numeric `BYTE`,
and +3 for any other mnemonic.  `none` where the record is not well-formed
enough for a length to be defined (empty mnemonic, empty `BYTE` operand,
unparsable reservation count). -/
def claimedAdvance (mnem opnd : String) : Option Int :=
  if dMem FORM2 mnem then some 2
  else if dMem FORM1 mnem then some 1
  else
    match mnem.data with
    | [] => none
    | m0 :: _ =>
      if m0 = '+' then some 4
      else if mnem = "RESW" then
        match pyIntDec opnd with
        | .ok n => some (n * 3)
        | .error _ => none
      else if mnem = "RESB" then
        match pyIntDec opnd with
        | .ok n => some n
        | .error _ => none
      else if mnem = "WORD" then some 3
      else if mnem = "BYTE" then
        match opnd.data with
        | [] => none
        | b0 :: _ =>
          if b0 = 'C' then some ((opnd.length : Int) - 3)
          else if b0 = 'X' then some (Int.fdiv ((opnd.length : Int) - 3) 2)
          else some 1
      else some 3

/-- Modelled from the spec: decode a 3-hex-digit field as a signed 12-bit
two's-complement value (values at or above 2048 represent negatives). -/
def decodeSigned12 (s : String) : Int :=
  let v : Nat := s.data.foldl
    (fun a c => 16 * a + (match hexVal? c with | some d => d | none => 0)) 0
  if 2048 ≤ v then (v : Int) - 4096 else (v : Int)

/-- Modelled from the spec: the claimed two's-complement encoding of a
negative displacement `d` — invert each of the 12 bits of `|d|` (that is,
take `4095 - |d|`), add 1, and render as 3 hex digits. -/
def specTwoComp12 (d : Int) : String :=
  zfill (pyHexNat ((4095 - d.natAbs) + 1)) 3

/-! Little-endian and most-significant-first digit values, used to reason
about the digit-string functions above. -/

/-- Value of a little-endian digit list in base `b`. -/
def ofLE (b : Nat) : List Nat → Nat
  | [] => 0
  | d :: ds => d + b * ofLE b ds

/-- Value of a most-significant-first digit list in base `b`. -/
def valMSB (b : Nat) (ds : List Nat) : Nat :=
  ds.foldl (fun a d => b * a + d) 0

/-! ### Helper lemmas -/

@[simp] theorem ebind_ok {α β : Type} (a : α) (f : α → PyRes β) :
    ebind (.ok a) f = f a := rfl

@[simp] theorem ebind_error {α β : Type} (e : PyErr) (f : α → PyRes β) :
    ebind (.error e) f = (.error e : PyRes β) := rfl

theorem natDigitsAux_ofLE (b : Nat) (hb : 2 ≤ b) :
    ∀ (fuel n : Nat), n ≤ fuel → ofLE b (natDigitsAux b fuel n) = n := by
  intro fuel
  induction fuel with
  | zero =>
    intro n h
    have hn : n = 0 := by omega
    subst hn
    rfl
  | succ f ih =>
    intro n h
    unfold natDigitsAux
    by_cases h0 : n = 0
    · subst h0; simp [ofLE]
    · rw [if_neg h0]
      have hdiv : n / b < n := Nat.div_lt_self (Nat.pos_of_ne_zero h0) (by omega)
      show n % b + b * ofLE b (natDigitsAux b f (n / b)) = n
      rw [ih (n / b) (by omega)]
      exact Nat.mod_add_div n b

theorem natDigitsAux_lt (b : Nat) (hb : 0 < b) :
    ∀ (fuel n d : Nat), d ∈ natDigitsAux b fuel n → d < b := by
  intro fuel
  induction fuel with
  | zero => intro n d h; simp [natDigitsAux] at h
  | succ f ih =>
    intro n d h
    unfold natDigitsAux at h
    by_cases h0 : n = 0
    · simp [h0] at h
    · rw [if_neg h0] at h
      rcases List.mem_cons.mp h with h1 | h1
      · subst h1; exact Nat.mod_lt n hb
      · exact ih (n / b) d h1

theorem natDigitsAux_length (b : Nat) (hb : 2 ≤ b) :
    ∀ (fuel n k : Nat), n ≤ fuel → n < b ^ k →
      (natDigitsAux b fuel n).length ≤ k := by
  intro fuel
  induction fuel with
  | zero =>
    intro n k h hk
    have hn : n = 0 := by omega
    subst hn
    simp [natDigitsAux]
  | succ f ih =>
    intro n k hn hk
    unfold natDigitsAux
    by_cases h0 : n = 0
    · simp [h0]
    · rw [if_neg h0]
      have hk1 : 1 ≤ k := by
        by_contra hkk
        have hk0 : k = 0 := by omega
        subst hk0
        simp at hk
        omega
      have hdiv : n / b < n := Nat.div_lt_self (Nat.pos_of_ne_zero h0) (by omega)
      have hdb : n / b < b ^ (k - 1) := by
        rw [Nat.div_lt_iff_lt_mul (by omega)]
        calc n < b ^ k := hk
          _ = b ^ (k - 1) * b := by
              rw [← Nat.pow_succ]
              congr 1
              omega
      have := ih (n / b) (k - 1) (by omega) hdb
      simp only [List.length_cons]
      omega

theorem ofLE_lt (b : Nat) (_hb : 1 ≤ b) :
    ∀ ds : List Nat, (∀ d ∈ ds, d < b) → ofLE b ds < b ^ ds.length := by
  intro ds
  induction ds with
  | nil => intro _; simp [ofLE]
  | cons d ds ih =>
    intro h
    have hd : d < b := h d (List.mem_cons_self d ds)
    have hds : ofLE b ds < b ^ ds.length :=
      ih (fun x hx => h x (List.mem_cons_of_mem _ hx))
    show d + b * ofLE b ds < b ^ (ds.length + 1)
    calc d + b * ofLE b ds < b + b * ofLE b ds := by omega
      _ = b * (ofLE b ds + 1) := by ring
      _ ≤ b * b ^ ds.length := Nat.mul_le_mul_left b hds
      _ = b ^ (ds.length + 1) := by rw [Nat.pow_succ]; ring

theorem foldl_valMSB_acc (b : Nat) :
    ∀ (ds : List Nat) (a : Nat),
      ds.foldl (fun x d => b * x + d) a = a * b ^ ds.length + valMSB b ds := by
  intro ds
  induction ds with
  | nil => intro a; simp [valMSB]
  | cons d ds ih =>
    intro a
    have hcons : valMSB b (d :: ds) = d * b ^ ds.length + valMSB b ds := by
      show ds.foldl (fun x e => b * x + e) (b * 0 + d) = _
      rw [Nat.mul_zero, Nat.zero_add, ih d]
    simp only [List.foldl_cons, List.length_cons]
    rw [ih (b * a + d), hcons, Nat.pow_succ]
    ring

theorem valMSB_append (b : Nat) (xs ys : List Nat) :
    valMSB b (xs ++ ys) = valMSB b xs * b ^ ys.length + valMSB b ys := by
  unfold valMSB
  rw [List.foldl_append]
  exact foldl_valMSB_acc b ys _

theorem valMSB_reverse (b : Nat) : ∀ ds : List Nat, valMSB b ds.reverse = ofLE b ds := by
  intro ds
  induction ds with
  | nil => rfl
  | cons d ds ih =>
    simp only [List.reverse_cons]
    rw [valMSB_append, ih]
    show ofLE b ds * b ^ ([d].length) + valMSB b [d] = ofLE b (d :: ds)
    have h1 : valMSB b [d] = d := by
      show b * 0 + d = d
      omega
    have h2 : ofLE b (d :: ds) = d + b * ofLE b ds := rfl
    rw [h1, h2]
    simp [pow_one]
    ring

theorem ofLE_compl : ∀ ds : List Nat, (∀ d ∈ ds, d < 2) →
    ofLE 2 (ds.map (fun d => 1 - d)) = 2 ^ ds.length - 1 - ofLE 2 ds := by
  intro ds
  induction ds with
  | nil => intro h; rfl
  | cons d ds ih =>
    intro h
    have hd : d < 2 := h d (List.mem_cons_self d ds)
    have hds : ofLE 2 ds < 2 ^ ds.length :=
      ofLE_lt 2 (by omega) ds (fun x hx => h x (List.mem_cons_of_mem _ hx))
    simp only [List.map_cons, List.length_cons]
    show (1 - d) + 2 * ofLE 2 (ds.map (fun e => 1 - e)) = _
    rw [ih (fun x hx => h x (List.mem_cons_of_mem _ hx)), Nat.pow_succ]
    have h2 : 1 ≤ 2 ^ ds.length := Nat.one_le_two_pow
    show (1 - d) + 2 * (2 ^ ds.length - 1 - ofLE 2 ds)
      = 2 ^ ds.length * 2 - 1 - (d + 2 * ofLE 2 ds)
    omega

theorem ofLE_replicate_one : ∀ k : Nat, ofLE 2 (List.replicate k 1) = 2 ^ k - 1 := by
  intro k
  induction k with
  | zero => rfl
  | succ k ih =>
    simp only [List.replicate_succ]
    show 1 + 2 * ofLE 2 (List.replicate k 1) = 2 ^ (k + 1) - 1
    rw [ih, Nat.pow_succ]
    have : 1 ≤ 2 ^ k := Nat.one_le_two_pow
    omega

theorem parseBinChars_eq (cs : List Char) :
    parseBinChars cs = valMSB 2 (cs.map (fun c => if c = '1' then 1 else 0)) := by
  unfold parseBinChars valMSB
  rw [List.foldl_map]

theorem bit_digitChar : ∀ d : Nat, d < 2 →
    ((if digitChar d = '1' then 1 else 0) : Nat) = d := by decide

theorem flipChar_digitChar_eq : ∀ d : Nat, d < 2 →
    flipChar (digitChar d) = digitChar (1 - d) := by decide

theorem hexRead_digitChar : ∀ d : Nat, d < 16 →
    (match hexVal? (digitChar d) with | some x => x | none => 0) = d := by decide

theorem digitChar_ne_dash : ∀ d : Nat, d < 16 → digitChar d ≠ '-' := by decide

theorem zfill_data (s : String) (w : Nat) (h : s.data.head? ≠ some '-') :
    (zfill s w).data = List.replicate (w - s.length) '0' ++ s.data := by
  unfold zfill
  split
  next heq => exact absurd (by rw [heq]; rfl) h
  next => rfl

theorem map_bit_digitChar : ∀ es : List Nat, (∀ d ∈ es, d < 2) →
    (es.map digitChar).map (fun c => if c = '1' then (1 : Nat) else 0) = es := by
  intro es
  induction es with
  | nil => intro h; rfl
  | cons d es ih =>
    intro h
    simp only [List.map_cons]
    rw [bit_digitChar d (h d (List.mem_cons_self d es)),
        ih (fun x hx => h x (List.mem_cons_of_mem _ hx))]

theorem foldl_hexread_eq_valMSB (es : List Nat) :
    ∀ a : Nat, (∀ d ∈ es, d < 16) →
    (es.map digitChar).foldl
      (fun x c => 16 * x + (match hexVal? c with | some v => v | none => 0)) a
      = es.foldl (fun x d => 16 * x + d) a := by
  induction es with
  | nil => intro a h; rfl
  | cons d es ih =>
    intro a h
    simp only [List.map_cons, List.foldl_cons]
    rw [hexRead_digitChar d (h d (List.mem_cons_self d es))]
    exact ih _ (fun x hx => h x (List.mem_cons_of_mem _ hx))

/-- The core two's-complement computation: zero-filling the binary digits of
`a` to 12 bits and flipping every bit reads back as `4095 - a`. -/
theorem parseBin_flip_zfill (a : Nat) (h1 : 1 ≤ a) (h2 : a ≤ 4095) :
    parseBinChars ((zfill (pyBinNat a) 12).data.map flipChar) = 4095 - a := by
  have hofle : ofLE 2 (natDigits 2 a) = a := natDigitsAux_ofLE 2 le_rfl a a le_rfl
  have hlt : ∀ d ∈ natDigits 2 a, d < 2 := fun d hd => natDigitsAux_lt 2 (by omega) a a d hd
  have hlen : (natDigits 2 a).length ≤ 12 := by
    apply natDigitsAux_length 2 le_rfl a a 12 le_rfl
    have : (2 : Nat) ^ 12 = 4096 := by norm_num
    omega
  have havlt : a < 2 ^ (natDigits 2 a).length := by
    have hv := ofLE_lt 2 (by omega) (natDigits 2 a) hlt
    rwa [hofle] at hv
  have hrender : (pyBinNat a).data = (natDigits 2 a).reverse.map digitChar := by
    unfold pyBinNat renderNat
    rw [if_neg (by omega)]
  have hlength : (pyBinNat a).length = (natDigits 2 a).length := by
    show (pyBinNat a).data.length = _
    rw [hrender]
    simp
  have hhead : (pyBinNat a).data.head? ≠ some '-' := by
    rw [hrender]
    intro hcon
    cases hrev : (natDigits 2 a).reverse with
    | nil => rw [hrev] at hcon; simp at hcon
    | cons d es =>
      rw [hrev] at hcon
      simp only [List.map_cons, List.head?_cons, Option.some.injEq] at hcon
      have hd2 : d < 2 := by
        apply hlt
        rw [← List.mem_reverse, hrev]
        exact List.mem_cons_self d es
      exact digitChar_ne_dash d (by omega) hcon
  rw [zfill_data _ 12 hhead, hlength, hrender, List.map_append, List.map_replicate]
  have hflip0 : flipChar '0' = '1' := rfl
  rw [hflip0]
  have hmapflip : ((natDigits 2 a).reverse.map digitChar).map flipChar
      = ((natDigits 2 a).reverse.map (fun d => 1 - d)).map digitChar := by
    rw [List.map_map, List.map_map]
    apply List.map_congr_left
    intro d hd
    exact flipChar_digitChar_eq d (hlt d (List.mem_reverse.mp hd))
  rw [hmapflip, parseBinChars_eq, List.map_append, List.map_replicate]
  have hbit1 : (if ('1' : Char) = '1' then (1 : Nat) else 0) = 1 := rfl
  rw [hbit1]
  have hmaps : (((natDigits 2 a).reverse.map (fun d => 1 - d)).map digitChar).map
      (fun c => if c = '1' then (1 : Nat) else 0)
      = (natDigits 2 a).reverse.map (fun d => 1 - d) := by
    apply map_bit_digitChar
    intro d hd
    rcases List.mem_map.mp hd with ⟨x, hx, hxd⟩
    omega
  rw [hmaps, valMSB_append]
  have hrepl : valMSB 2 (List.replicate (12 - (natDigits 2 a).length) 1)
      = 2 ^ (12 - (natDigits 2 a).length) - 1 := by
    rw [← List.reverse_replicate, valMSB_reverse, ofLE_replicate_one]
  have hcompl : valMSB 2 ((natDigits 2 a).reverse.map (fun d => 1 - d))
      = 2 ^ (natDigits 2 a).length - 1 - a := by
    rw [List.map_reverse, valMSB_reverse, ofLE_compl _ hlt, hofle]
  rw [hrepl, hcompl]
  simp only [List.length_map, List.length_reverse]
  have hpow : 2 ^ (12 - (natDigits 2 a).length) * 2 ^ (natDigits 2 a).length = 4096 := by
    rw [← pow_add]
    have : 12 - (natDigits 2 a).length + (natDigits 2 a).length = 12 := by omega
    rw [this]
    norm_num
  have hsub : (2 ^ (12 - (natDigits 2 a).length) - 1) * 2 ^ (natDigits 2 a).length
      = 4096 - 2 ^ (natDigits 2 a).length := by
    rw [Nat.sub_mul, one_mul, hpow]
  rw [hsub]
  have hp1 : 1 ≤ 2 ^ (natDigits 2 a).length := Nat.one_le_two_pow
  have hple : 2 ^ (natDigits 2 a).length ≤ 4096 := by
    calc (2 : Nat) ^ (natDigits 2 a).length ≤ 2 ^ 12 :=
          Nat.pow_le_pow_right (by omega) hlen
      _ = 4096 := by norm_num
  omega

/-- `TwoComp` on a negative displacement of magnitude at most 2048 renders
`4096 - |d|` as an (at least) 3-hex-digit field. -/
theorem TwoComp_eq (d : Int) (h1 : d < 0) (h2 : d.natAbs ≤ 2048) :
    TwoComp d = zfill (pyHexNat (4096 - d.natAbs)) 3 := by
  unfold TwoComp binSliced
  rw [if_pos h1]
  show zfill (pyHexNat
      (parseBinChars ((zfill (pyBinNat d.natAbs) 12).data.map flipChar) + 1)) 3
    = zfill (pyHexNat (4096 - d.natAbs)) 3
  rw [parseBin_flip_zfill d.natAbs (by omega) (by omega)]
  have heq : 4095 - d.natAbs + 1 = 4096 - d.natAbs := by omega
  rw [heq]

/-- The hex rendering of `256 ≤ n < 4096` is exactly 3 digits, starts with a
digit, and reads back as `n`. -/
theorem pyHexNat_big (n : Nat) (h1 : 256 ≤ n) (h2 : n < 4096) :
    (pyHexNat n).length = 3 ∧ (pyHexNat n).data.head? ≠ some '-' ∧
    (pyHexNat n).data.foldl
      (fun a c => 16 * a + (match hexVal? c with | some v => v | none => 0)) 0 = n := by
  have hofle : ofLE 16 (natDigits 16 n) = n :=
    natDigitsAux_ofLE 16 (by omega) n n le_rfl
  have hlt : ∀ d ∈ natDigits 16 n, d < 16 :=
    fun d hd => natDigitsAux_lt 16 (by omega) n n d hd
  have hub : (natDigits 16 n).length ≤ 3 := by
    apply natDigitsAux_length 16 (by omega) n n 3 le_rfl
    have : (16 : Nat) ^ 3 = 4096 := by norm_num
    omega
  have havlt : n < 16 ^ (natDigits 16 n).length := by
    have hv := ofLE_lt 16 (by omega) (natDigits 16 n) hlt
    rwa [hofle] at hv
  have hlen3 : (natDigits 16 n).length = 3 := by
    by_contra hne
    have hle2 : (natDigits 16 n).length ≤ 2 := by omega
    have hmono : (16 : Nat) ^ (natDigits 16 n).length ≤ 16 ^ 2 :=
      Nat.pow_le_pow_right (by omega) hle2
    norm_num at hmono
    omega
  have hrender : (pyHexNat n).data = (natDigits 16 n).reverse.map digitChar := by
    unfold pyHexNat renderNat
    rw [if_neg (by omega)]
  refine ⟨?_, ?_, ?_⟩
  · show (pyHexNat n).data.length = 3
    rw [hrender]
    simp [hlen3]
  · rw [hrender]
    intro hcon
    cases hrev : (natDigits 16 n).reverse with
    | nil => rw [hrev] at hcon; simp at hcon
    | cons d es =>
      rw [hrev] at hcon
      simp only [List.map_cons, List.head?_cons, Option.some.injEq] at hcon
      have hd16 : d < 16 := by
        apply hlt
        rw [← List.mem_reverse, hrev]
        exact List.mem_cons_self d es
      exact digitChar_ne_dash d hd16 hcon
  · rw [hrender]
    rw [foldl_hexread_eq_valMSB _ 0 (fun d hd => hlt d (List.mem_reverse.mp hd))]
    show valMSB 16 ((natDigits 16 n).reverse) = n
    rw [valMSB_reverse]
    exact hofle

/-- A step of the Pass-2 loop can rebind the base register but never touches
the location counter or the symbol table. -/
theorem stepRecord_basevar_only (elem : List String) (st st2 : SPState)
    (o : Option (List Int)) (h : stepRecord elem st = .ok (st2, o)) :
    st2.symtab = st.symtab ∧ st2.locctr = st.locctr := by
  unfold stepRecord at h
  cases hs : stepInstr elem st with
  | error e => rw [hs] at h; simp only [ebind_error] at h; cases h
  | ok r =>
    rw [hs] at h
    simp only [ebind_ok] at h
    match r with
    | none =>
      replace h : (.ok (st, none) : PyRes (SPState × Option (List Int)))
          = .ok (st2, o) := h
      cases h
      exact ⟨rfl, rfl⟩
    | some (bv, instrform) =>
      replace h : ebind (writeBytes instrform)
          (fun bs => (.ok ({ st with basevar := bv }, some bs) :
            PyRes (SPState × Option (List Int)))) = .ok (st2, o) := h
      cases hw : writeBytes instrform with
      | error e => rw [hw] at h; simp only [ebind_error] at h; cases h
      | ok bs =>
        rw [hw] at h
        simp only [ebind_ok] at h
        cases h
        exact ⟨rfl, rfl⟩

/-- The Pass-2 loop preserves the symbol table and the location counter at
every intermediate state, whatever records it is given and wherever it
stops. -/
theorem SecondPassAux_frame (l : List (List String)) :
    ∀ (s : SPState) (acc : List Int),
      (SecondPassAux l s acc).1.symtab = s.symtab
      ∧ (SecondPassAux l s acc).1.locctr = s.locctr := by
  induction l with
  | nil => intro s acc; exact ⟨rfl, rfl⟩
  | cons elem rest ih =>
    intro s acc
    unfold SecondPassAux
    cases h : stepRecord elem s with
    | error e => exact ⟨rfl, rfl⟩
    | ok p =>
      obtain ⟨s2, o⟩ := p
      have hframe := stepRecord_basevar_only elem s s2 o h
      cases o with
      | none => exact ⟨(ih s2 acc).1.trans hframe.1, (ih s2 acc).2.trans hframe.2⟩
      | some bs =>
        exact ⟨(ih s2 (acc ++ bs)).1.trans hframe.1,
               (ih s2 (acc ++ bs)).2.trans hframe.2⟩

/-! ### Claim theorems -/

/-- C1: the Displacement Resolver's program-counter range test is applied to
`(currentAddress + 3) - targetAddress`, the negation of
`disp = targetAddress - (currentAddress + 3)`.  Consequently a displacement
of exactly +2048 (label `L` at `0x803`, instruction at 0) stays
program-counter-relative and is emitted as `800`, instead of falling back to
base-relative as the claim requires; and a displacement of exactly −2048
(label `M` at 3, instruction at `0x800`) falls back to base-relative instead
of encoding as PC-relative `800`.  The agreed boundary +2047 encodes as
`7ff` PC-relative. -/
theorem C1_displacement_boundary :
    XBPE "LDA" "L" "00000" [("L", "00803")] = .ok "2"
    ∧ Format3 "LDA" "L" "00000" (some "0") [("L", "00803")] = .ok "032800"
    ∧ XBPE "LDA" "M" "00800" [("M", "00003")] = .ok "4"
    ∧ Format3 "LDA" "M" "00800" (some "0") [("M", "00003")] = .ok "034003"
    ∧ Format3 "LDA" "N" "00000" (some "0") [("N", "00802")] = .ok "0327ff" :=
  ⟨rfl, rfl, rfl, rfl, rfl⟩

/-- C2: a format-3 record whose operand names an undeclared label does not
report-and-continue: under simple addressing the encoder evaluates
`int(SYMTAB.get(operand), 16)` = `int(None, 16)` and raises an uncaught
`TypeError`; under indirect addressing it falls into the numeric-literal
branch and `int("UNDEF")` raises an uncaught `ValueError`.  Either exception
aborts `SecondPass` instead of emitting zero bytes and continuing. -/
theorem C2_unresolved_label_crash :
    Format3 "LDA" "UNDEF" "00000" (some "0") [] = .error .typeError
    ∧ Format3 "LDA" "@UNDEF" "00000" (some "0") [] = .error .valueError
    ∧ stepRecord ["00000", "    ", "LDA", "UNDEF"]
        { locctr := 0, symtab := [], basevar := some "0" } = .error .typeError :=
  ⟨rfl, rfl, rfl⟩

/-- C3 counterexample: a bare `RSUB` record does not emit the bytes
`4C 00 00` — `FindOpcode` adds the n/i bits (+3) to opcode `4C`, so the
record encodes as `4f0000`, whose bytes are `4F 00 00`. -/
theorem C3_rsub_counterexample :
    Format3 "RSUB" "" "00000" (some "0") [] = .ok "4f0000"
    ∧ writeBytes "4f0000" = .ok [79, 0, 0]
    ∧ ([79, 0, 0] : List Int) ≠ [76, 0, 0] :=
  ⟨rfl, rfl, by decide⟩

/-- C3 amended: for every current address, base value and symbol table, a
format-3 `RSUB` with an empty operand encodes as `4f0000` (opcode `4C` with
n=i=1), while `+RSUB` with an empty operand raises an uncaught `IndexError`
in `Format4` (the `opcode == "RSUB"` special case never matches `"+RSUB"`,
so `operand[0]` is evaluated) instead of emitting a padded 4-byte form; with
operand text present the flag nibble is computed from the operand by `XBPE`
rather than being fixed. -/
theorem C3_rsub_encoding (curraddr : String) (baseaddr : Option String)
    (symtab : List (String × String)) :
    Format3 "RSUB" "" curraddr baseaddr symtab = .ok "4f0000"
    ∧ Format4 "+RSUB" "" curraddr symtab = .error .indexError
    ∧ XBPE "RSUB" "ALPHA" "00000" [("ALPHA", "00100")] = .ok "2" :=
  ⟨rfl, rfl, rfl⟩

/-- C5: a valid program breaks the reserved-length invariant.  The record
`LDA L` at address 0, with `L` resolved at `0x2000` and the base register at
`0x1001`, is sized at 3 bytes by Pass 1 but encodes (through the decimal
base-relative branch) to the 7 hex characters `0344095`, which the writer
packs into 4 bytes.  A bare-numeric `BYTE 5` record, sized at 1 byte by Pass
1, raises an uncaught `TypeError` (`hex()` of a string) and emits nothing. -/
theorem C5_reserved_vs_emitted :
    FindOffset ["    ", "LDA", "L"] 0 = .ok (["00000", "    ", "LDA", "L"], 3)
    ∧ Format3 "LDA" "L" "00000" (some "01001") [("L", "02000")] = .ok "0344095"
    ∧ writeBytes "0344095" = .ok [3, 68, 9, 5]
    ∧ ([3, 68, 9, 5] : List Int).length ≠ 3
    ∧ FindOffset ["    ", "BYTE", "5"] 0 = .ok (["00000", "    ", "BYTE", "5"], 1)
    ∧ stepRecord ["00000", "    ", "BYTE", "5"]
        { locctr := 0, symtab := [], basevar := some "0" } = .error .typeError :=
  ⟨rfl, rfl, rfl, by decide, rfl, rfl⟩

/-- C6: the base-relative fallback emits `str(basevar).zfill(3)` — the
DECIMAL digits of `targetAddress - baseRegisterValue` — not an unsigned
hexadecimal field.  With the target at `0x2000` and the base register at
`0x1f01` the difference is 255: the code emits `255` where the claimed
unsigned 3-digit hex field is `0ff`. -/
theorem C6_base_displacement_decimal :
    Format3 "LDA" "L" "00000" (some "01f01") [("L", "02000")] = .ok "034255"
    ∧ zfill (pyHexNat 255) 3 = "0ff"
    ∧ ("034255" : String) ≠ "034" ++ "0ff" :=
  ⟨rfl, rfl, by decide⟩

/-- C7: for every negative displacement `d` with `|d| ≤ 2048`, `TwoComp`
returns exactly the 3-hex-digit string described by the spec (invert the 12
bits of `|d|`, i.e. take `4095 - |d|`, and add 1), and decoding that field
as a signed 12-bit two's-complement value recovers `d`. -/
theorem C7_twocomp_roundtrip (d : Int) (hneg : d < 0) (hmag : d.natAbs ≤ 2048) :
    TwoComp d = specTwoComp12 d
    ∧ (TwoComp d).length = 3
    ∧ decodeSigned12 (TwoComp d) = d := by
  have ha1 : 1 ≤ d.natAbs := by omega
  have key := TwoComp_eq d hneg hmag
  have hv1 : 256 ≤ 4096 - d.natAbs := by omega
  have hv2 : 4096 - d.natAbs < 4096 := by omega
  obtain ⟨hL, hdash, hfold⟩ := pyHexNat_big (4096 - d.natAbs) hv1 hv2
  have hzfill : zfill (pyHexNat (4096 - d.natAbs)) 3 = pyHexNat (4096 - d.natAbs) := by
    apply String.ext
    rw [zfill_data _ _ hdash, hL]
    simp
  refine ⟨?_, ?_, ?_⟩
  · rw [key]
    unfold specTwoComp12
    have heq : 4095 - d.natAbs + 1 = 4096 - d.natAbs := by omega
    rw [heq]
  · rw [key, hzfill]
    exact hL
  · rw [key, hzfill]
    unfold decodeSigned12
    rw [hfold]
    rw [if_pos (by omega)]
    omega

/-- Witness for the C7 round-trip theorem at the concrete displacement −5. -/
theorem C7_twocomp_roundtrip_witness :
    TwoComp (-5) = specTwoComp12 (-5)
    ∧ (TwoComp (-5)).length = 3
    ∧ decodeSigned12 (TwoComp (-5)) = -5 :=
  C7_twocomp_roundtrip (-5) (by decide) (by decide)

/-- C8 counterexample: for a format-4 instruction with an empty operand the
flag nibble does not have the e bit set — `XBPE` returns `'0'` from its
empty-operand short-circuit before the `+`-prefix test — and `Format4` then
raises an uncaught `IndexError` at `operand[0]`. -/
theorem C8_empty_operand_counterexample :
    XBPE "+LDA" "" "00000" [] = .ok "0"
    ∧ Format4 "+LDA" "" "00000" [] = .error .indexError :=
  ⟨rfl, rfl⟩

/-- C9: running Pass 2 never mutates the location counter or the symbol
table — for every record sequence and every starting state, the state after
`SecondPass` carries the same `SYMTAB` and the same `LOCCTR` it started
with (only the pass-local base register is rebound). -/
theorem C9_secondpass_frame (infolist : List (List String)) (st : SPState) :
    (SecondPass infolist st).1.symtab = st.symtab
    ∧ (SecondPass infolist st).1.locctr = st.locctr := by
  unfold SecondPass
  exact SecondPassAux_frame infolist { st with basevar := some "0" } []

/-- C8 amended: the e bit is always set for a `+`-prefixed operation with a
NONEMPTY operand (the flag nibble is `1`, or `9` when the operand's trailing
character is `'X'`, which also sets the x bit); with an empty operand the
nibble is `0` and `Format4` raises an uncaught `IndexError` instead of
encoding; and for every simple operand — one that does not start with `#` or
`@` and does not end in `'X'` (a trailing `'X'` routes the operand to the
indexed branch instead) — that is found in the Symbol Table, the encoding is
the opcode byte (opcode value + 3 for n=i=1), the e-bit nibble `1`, and then
the full resolved table address as the address field. -/
theorem C8_extended_flags :
    (∀ (opcode operand curraddr : String) (symtab : List (String × String)),
        operand ≠ "" → opcode.data.head? = some '+' →
        XBPE opcode operand curraddr symtab = .ok "1"
        ∨ XBPE opcode operand curraddr symtab = .ok "9")
    ∧ (∀ (curraddr : String) (symtab : List (String × String)),
        XBPE "+LDA" "" curraddr symtab = .ok "0"
        ∧ Format4 "+LDA" "" curraddr symtab = .error .indexError)
    ∧ (∀ (opcode operand curraddr code a : String)
          (symtab : List (String × String)) (v : Int),
        opcode.data.head? = some '+' →
        dGet OPTAB (strDrop1 opcode) = some code →
        pyIntHex code = .ok v →
        operand ≠ "" →
        operand.data.getLast? ≠ some 'X' →
        operand.data.head? ≠ some '#' →
        operand.data.head? ≠ some '@' →
        dGet symtab operand = some a →
        Format4 opcode operand curraddr symtab
          = .ok ((zfill (pyHexSliced (v + 3)) 2 ++ "1") ++ a)) := by
  refine ⟨?_, fun curraddr symtab => ⟨rfl, rfl⟩, ?_⟩
  · intro opcode operand curraddr symtab hne hplus
    have hdz : operand.data ≠ [] := by
      intro h
      exact hne (String.ext h)
    obtain ⟨l, hl⟩ : ∃ l, operand.data.getLast? = some l := by
      cases h : operand.data.getLast? with
      | none => exact absurd (List.getLast?_eq_none_iff.mp h) hdz
      | some l => exact ⟨l, rfl⟩
    obtain ⟨tl, htl⟩ : ∃ tl, opcode.data = '+' :: tl := by
      cases h : opcode.data with
      | nil => rw [h] at hplus; exact absurd hplus (by simp)
      | cons c cs =>
        rw [h] at hplus
        simp only [List.head?_cons, Option.some.injEq] at hplus
        exact ⟨cs, by rw [hplus]⟩
    unfold XBPE strLast strHead
    rw [if_neg hne, hl, htl]
    by_cases hx : l = 'X'
    · right; simp [hx]; rfl
    · left; simp [hx]; rfl
  · intro opcode operand curraddr code a symtab v hplus hcode hv hne hlX hh1 hh2 ha
    obtain ⟨c0, cs, hop⟩ : ∃ c0 cs, operand.data = c0 :: cs := by
      cases h : operand.data with
      | nil => exact absurd (String.ext h) hne
      | cons c cs => exact ⟨c, cs, rfl⟩
    have hdz : operand.data ≠ [] := by rw [hop]; simp
    obtain ⟨l, hl⟩ : ∃ l, operand.data.getLast? = some l := by
      cases h : operand.data.getLast? with
      | none => exact absurd (List.getLast?_eq_none_iff.mp h) hdz
      | some l => exact ⟨l, rfl⟩
    have hlne : l ≠ 'X' := by
      intro h
      exact hlX (h ▸ hl)
    have hc0sharp : c0 ≠ '#' := by
      intro h
      apply hh1
      rw [hop, h]
      rfl
    have hc0at : c0 ≠ '@' := by
      intro h
      apply hh2
      rw [hop, h]
      rfl
    obtain ⟨tl, htl⟩ : ∃ tl, opcode.data = '+' :: tl := by
      cases h : opcode.data with
      | nil => rw [h] at hplus; exact absurd hplus (by simp)
      | cons c cs =>
        rw [h] at hplus
        simp only [List.head?_cons, Option.some.injEq] at hplus
        exact ⟨cs, by rw [hplus]⟩
    have hnrsub : opcode ≠ "RSUB" := by
      intro h
      rw [h] at htl
      have h2 : ("RSUB".data).head? = some '+' := by rw [htl]; rfl
      exact absurd h2 (by decide)
    have hxb : XBPE opcode operand curraddr symtab = .ok "1" := by
      unfold XBPE strLast strHead
      rw [if_neg hne, hl, htl]
      simp [hlne]
      rfl
    have hfo : FindOpcode code operand = .ok (zfill (pyHexSliced (v + 3)) 2) := by
      unfold FindOpcode NIbits strHead
      rw [hv]
      simp only [ebind_ok]
      by_cases hc4 : code = "4C"
      · rw [if_pos hc4]
        rfl
      · rw [if_neg hc4, hop]
        simp only [ebind_ok]
        rw [if_neg hc0sharp, if_neg hc0at]
    have harg : (match dGet OPTAB (strDrop1 opcode) with
        | none => (.error .typeError : PyRes String)
        | some c => FindOpcode c operand) = .ok (zfill (pyHexSliced (v + 3)) 2) := by
      rw [hcode]
      exact hfo
    unfold Format4 strHead strLast
    rw [harg]
    simp only [ebind_ok]
    rw [hxb]
    simp only [ebind_ok]
    rw [if_neg hnrsub, hop]
    simp only [ebind_ok]
    have hl2 : (c0 :: cs).getLast? = some l := by rw [← hop]; exact hl
    rw [if_neg (by simp [hc0sharp, hc0at]), hl2]
    simp only [ebind_ok]
    rw [if_neg hlne, ha]

/-- Witness for the amended C8 theorem: the e-bit conjunct at the concrete
nonempty operand `B`, and the address-field conjunct at `+LDA ALPHA` with
`ALPHA` resolved at `00103`. -/
theorem C8_extended_flags_witness :
    (XBPE "+LDA" "B" "00000" [] = .ok "1" ∨ XBPE "+LDA" "B" "00000" [] = .ok "9")
    ∧ Format4 "+LDA" "ALPHA" "00000" [("ALPHA", "00103")]
        = .ok ((zfill (pyHexSliced (0 + 3)) 2 ++ "1") ++ "00103") :=
  ⟨C8_extended_flags.1 "+LDA" "B" "00000" [] (by decide) rfl,
   C8_extended_flags.2.2 "+LDA" "ALPHA" "00000" "00" "00103" [("ALPHA", "00103")] 0
     rfl rfl rfl (by decide) (by decide) (by decide) (by decide) rfl⟩

/-- C4: for every record that is not a `BASE` line, a full-line comment or a
`START` line, Pass 1 inserts the current location counter (rendered as a
5-digit hex address) in front of the record and advances the counter by
exactly the length enumerated in the claim (`claimedAdvance`). -/
theorem C4_pass1_sizing (label mnem opnd : String) (loc n : Int)
    (c : Char) (cs : List Char)
    (hmB : mnem ≠ "BASE") (hmS : mnem ≠ "START")
    (hlc : label.data = c :: cs) (hdot : c ≠ '.')
    (hadv : claimedAdvance mnem opnd = some n) :
    FindOffset [label, mnem, opnd] loc =
      .ok ([zfill (pyHexSliced loc) 5, label, mnem, opnd], loc + n) := by
  unfold claimedAdvance at hadv
  unfold FindOffset pyIdx strHead
  simp only [List.getElem?_cons_zero, List.getElem?_cons_succ, ebind_ok]
  rw [if_neg hmB, hlc]
  simp only [ebind_ok]
  rw [if_neg hdot, if_neg hmS]
  repeat' split at hadv
  all_goals cases hadv <;> simp_all

/-- Witness for the C4 sizing theorem at a concrete plain 3-byte record. -/
theorem C4_pass1_sizing_witness :
    FindOffset ["LOOP", "LDA", "ALPHA"] 0 =
      .ok ([zfill (pyHexSliced 0) 5, "LOOP", "LDA", "ALPHA"], 0 + 3) :=
  C4_pass1_sizing "LOOP" "LDA" "ALPHA" 0 3 'L' ['O', 'O', 'P']
    (by decide) (by decide) rfl (by decide) rfl

/-- C10: an empty or whitespace-only source line makes the pipeline raise an
uncaught `IndexError`: `FindColumn` indexes the first character of an empty
string unguarded, a bare-newline line survives `FindColumn` as three empty
fields and `FindOffset` then indexes the first character of the empty label
field, and a whitespace-only line crashes `FindOffset` at the empty
operation field — so Pass 1 aborts either way. -/
theorem C10_blank_line_crash :
    FindColumn "" = .error .indexError
    ∧ FindColumn "\n" = .ok ["", "", ""]
    ∧ FindOffset ["", "", ""] 0 = .error .indexError
    ∧ FirstPass ["\n"] = .error .indexError
    ∧ FirstPass [" \n"] = .error .indexError :=
  ⟨rfl, rfl, rfl, rfl, rfl⟩

end SicXE
